import Mathlib

/-!
Verification of the chunked file storage service in `src/FTS.go`.

The service splits an uploaded file into fixed-size chunks (1 MiB), stores a
metadata row (file id, filename, total chunk count) and one row per chunk in
a backing store, and reassembles the file on download by reading all chunks
concurrently and concatenating them in index order.

Embedding conventions:
- a byte is a `Nat` and file contents are `List Byte` (the chunking logic is
  agnostic to byte values);
- the backing store (Postgres in the source) is modelled as a pair of maps:
  file id to `FileRecord` for the `file_metadata` relation and
  (file id, chunk index) to chunk data for the `file_chunks` relation;
- effects of `db.Exec` / `db.QueryRow` that can fail are driven by explicit
  success flags (`metaOk`, `chunkOk`) so that the handler's behaviour under
  store failures can be stated;
- each handler also returns the trace of store operations it performed, in
  program order, so that claims such as "no chunk read is performed" or
  "the metadata write precedes every chunk write" are statable;
- the nondeterministic completion order of the download goroutines is an
  explicit parameter `order` (the order in which the fanned-out reads land
  in the shared `chunks` array); the upload goroutines insert rows at
  distinct keys (file id, index), so the final store state they produce is
  order-independent and is modelled directly as a map update.
-/

namespace FTS

/-- A byte of file content.  The chunking engine never inspects byte
values, so bytes are modelled as `Nat`. -/
abbrev Byte := Nat

/-- The contents of a file or of a single chunk, as a byte sequence. -/
abbrev FileData := List Byte

/-- `const chunkSize = 1 << 20` from `uploadFileHandler` (1 MiB). -/
def chunkSize : Nat := 1 <<< 20

/-- One row of the `file_metadata` relation: filename and declared chunk
count for a stored file (the id is the key under which the record is
stored). `upload_time` is set by the database and plays no role in the
claims, so it is omitted. -/
structure FileRecord where
  filename : String
  totalChunks : Nat
deriving DecidableEq

/-- The backing store: the `file_metadata` relation keyed by file id and
the `file_chunks` relation keyed by (file id, chunk index).  `none` means
no row is present for that key. -/
structure Store where
  metadata : String → Option FileRecord
  chunks : String → Nat → Option FileData

/-- The store with no rows at all. -/
def Store.empty : Store := ⟨fun _ => none, fun _ _ => none⟩

/-- Effect of a successful
`INSERT INTO file_metadata (file_id, filename, total_chunks)`. -/
def Store.putMetadata (s : Store) (id : String) (r : FileRecord) : Store :=
  ⟨fun id' => if id' = id then some r else s.metadata id', s.chunks⟩

/-- Combined effect of the fanned-out
`INSERT INTO file_chunks (file_id, chunk_index, chunk_data)` goroutines:
chunk `i` of `cs` is persisted exactly when its insert succeeded
(`ok i = true`).  The goroutines write distinct keys `(id, i)`, so the
final store does not depend on their completion order. -/
def Store.putChunks (s : Store) (id : String) (cs : List FileData) (ok : Nat → Bool) : Store :=
  ⟨s.metadata,
   fun id' i => if id' = id ∧ i < cs.length ∧ ok i = true then cs[i]? else s.chunks id' i⟩

/-- The chunk-splitting loop of `uploadFileHandler` (lines 75-88 of
`src/FTS.go`), with an explicit fuel argument for structural recursion.
Each iteration reads `n = min C (remaining bytes)` bytes from the stream
(`file.Read` on the in-memory multipart file returns the full requested
amount until the data is exhausted), breaks when `n == 0`, and otherwise
appends the `n` bytes read (`chunk[:n]`, i.e. `xs.take C`) and continues
on the rest (`xs.drop C`).  `n == 0` happens exactly when the remaining
data is empty or `C = 0`.  Fuel `xs.length` is always sufficient: every
iteration that does not break consumes at least one byte. -/
def splitIntoChunksAux (C : Nat) : Nat → FileData → List FileData
  | _, [] => []
  | 0, _ :: _ => []
  | fuel+1, x :: xs =>
    if C = 0 then []
    else ((x :: xs).take C) :: splitIntoChunksAux C fuel ((x :: xs).drop C)

/-- The chunk splitter: divides a byte sequence into consecutive chunks of
`C` bytes, the last chunk possibly shorter.  Models the read loop of
`uploadFileHandler` run to completion on input `xs`. -/
def splitIntoChunks (C : Nat) (xs : FileData) : List FileData :=
  splitIntoChunksAux C xs.length xs

/-- A store operation performed by a handler, in program order. -/
inductive StoreOp where
  | metaWrite (id : String)
  | chunkWrite (id : String) (index : Nat)
  | metaLookup (id : String)
  | chunkRead (id : String) (index : Nat)
deriving DecidableEq

/-- Outcome of `uploadFileHandler` as seen by the client:
HTTP 400 "Error retrieving file", HTTP 500 "Error reading file",
HTTP 500 "Error storing file metadata", or HTTP 200 with the given
response body. -/
inductive UploadResult where
  | badRequest
  | readError
  | metadataError
  | success (body : String)
deriving DecidableEq

/-- The success response body written by `uploadFileHandler`:
`fmt.Sprintf("File uploaded successfully with ID: %s", fileID)`. -/
def uploadSuccessBody (id : String) : String :=
  "File uploaded successfully with ID: " ++ id

/-- Result, final store state and store-operation trace of one run of
`uploadFileHandler`. -/
structure UploadOutcome where
  result : UploadResult
  store : Store
  trace : List StoreOp

/-- The store state at the point where the metadata insert of
`uploadFileHandler` (line 92 of `src/FTS.go`) has just succeeded: the
`FileRecord` for the fresh id is now visible to readers, and no chunk
insert has been attempted yet. -/
def uploadMidStore (s : Store) (filename : String) (data : FileData) (newId : String) : Store :=
  s.putMetadata newId ⟨filename, (splitIntoChunks chunkSize data).length⟩

/-- `uploadFileHandler` (lines 60-118 of `src/FTS.go`).
`form` is the result of `r.FormFile("file")`: `none` if retrieving the
file part failed (HTTP 400), otherwise the filename and full contents of
the part.  Go's `r.ParseMultipartForm(10 << 20)` caps only the memory used
while parsing (larger parts are spilled to temporary files) and never
rejects a request by size, and the handler contains no other size check,
so `data` is unrestricted.  `readErr` injects a mid-stream read failure
(HTTP 500 before anything is stored).  `metaOk` is whether the metadata
insert succeeds; `chunkOk i` is whether the fanned-out insert of chunk `i`
succeeds — a failed chunk insert is only logged and never changes the
response.  The handler waits for all chunk inserts (`wg.Wait()`) and then
answers 200 with the id embedded in a plain-text message. -/
def uploadFileHandler (s : Store) (form : Option (String × FileData)) (readErr : Bool)
    (newId : String) (metaOk : Bool) (chunkOk : Nat → Bool) : UploadOutcome :=
  match form with
  | none => ⟨.badRequest, s, []⟩
  | some (filename, data) =>
    if readErr then ⟨.readError, s, []⟩
    else
      let cs := splitIntoChunks chunkSize data
      if metaOk then
        ⟨.success (uploadSuccessBody newId),
         (uploadMidStore s filename data newId).putChunks newId cs chunkOk,
         .metaWrite newId :: (List.range cs.length).map (fun i => .chunkWrite newId i)⟩
      else ⟨.metadataError, s, [.metaWrite newId]⟩

/-- Outcome of `downloadFileHandler` as seen by the client:
HTTP 400 "File ID is required", HTTP 404 "File not found", or HTTP 200
with the filename (sent in the Content-Disposition header) and the
reassembled body. -/
inductive DownloadResult where
  | badRequest
  | notFound
  | ok (filename : String) (body : FileData)
deriving DecidableEq

/-- Result and store-operation trace of one run of `downloadFileHandler`. -/
structure DownloadOutcome where
  result : DownloadResult
  trace : List StoreOp
deriving DecidableEq

/-- What one download goroutine deposits in its slot of the shared
`chunks` array: the stored chunk data, or nothing (the slot keeps its
zero value `nil`, which contributes zero bytes on merge) when the
`SELECT chunk_data` fails because the row is absent or errored. -/
def readChunk (s : Store) (id : String) (i : Nat) : FileData :=
  (s.chunks id i).getD []

/-- The fanned-out chunk reads of `downloadFileHandler` landing in the
shared `chunks` array in completion order `order`: goroutine `i` sets
slot `i` to the data it read (or leaves the slot's zero value when the
read failed, modelled as setting the empty chunk). -/
def applyReads (s : Store) (id : String) : List FileData → List Nat → List FileData
  | slots, [] => slots
  | slots, i :: rest => applyReads s id (slots.set i (readChunk s id i)) rest

/-- The reassembled body in canonical index order: chunk data for indices
`0..N-1` concatenated, an absent or failed chunk contributing zero
bytes. -/
def downloadBody (s : Store) (id : String) (N : Nat) : FileData :=
  ((List.range N).map (readChunk s id)).flatten

/-- `downloadFileHandler` (lines 147-194 of `src/FTS.go`).
`idParam` is `r.URL.Query().Get("id")`, which is `""` both when the
parameter is absent and when it is empty.  `order` is the completion
order of the `totalChunks` fanned-out read goroutines (a permutation of
`0..totalChunks-1` in any actual run). -/
def downloadFileHandler (s : Store) (idParam : String) (order : List Nat) : DownloadOutcome :=
  if idParam = "" then ⟨.badRequest, []⟩
  else
    match s.metadata idParam with
    | none => ⟨.notFound, [.metaLookup idParam]⟩
    | some r =>
      ⟨.ok r.filename
        (applyReads s idParam (List.replicate r.totalChunks []) order).flatten,
       .metaLookup idParam :: (List.range r.totalChunks).map (fun i => .chunkRead idParam i)⟩

/-- Number of chunk rows actually persisted for `id` among the declared
indices `0..N-1`. -/
def persistedChunkCount (s : Store) (id : String) (N : Nat) : Nat :=
  ((List.range N).filter (fun i => (s.chunks id i).isSome)).length

/-! ### Properties of the chunk splitter -/

theorem splitIntoChunksAux_nil (C fuel : Nat) : splitIntoChunksAux C fuel [] = [] := by
  cases fuel <;> rfl

theorem splitIntoChunksAux_congr (C : Nat) :
    ∀ fuel₁ fuel₂ (xs : FileData), xs.length ≤ fuel₁ → xs.length ≤ fuel₂ →
      splitIntoChunksAux C fuel₁ xs = splitIntoChunksAux C fuel₂ xs := by
  intro fuel₁
  induction fuel₁ with
  | zero =>
    intro fuel₂ xs h₁ _
    have hxs : xs = [] := List.eq_nil_of_length_eq_zero (Nat.le_zero.mp h₁)
    subst hxs
    rw [splitIntoChunksAux_nil, splitIntoChunksAux_nil]
  | succ fuel ih =>
    intro fuel₂ xs h₁ h₂
    cases xs with
    | nil => rw [splitIntoChunksAux_nil, splitIntoChunksAux_nil]
    | cons x xs =>
      cases fuel₂ with
      | zero => exact absurd h₂ (by simp)
      | succ fuel₂ =>
        by_cases hC : C = 0
        · simp [splitIntoChunksAux, hC]
        · simp only [splitIntoChunksAux, if_neg hC]
          have hlen : ((x :: xs).drop C).length ≤ fuel := by
            have := List.length_drop C (x :: xs)
            simp only [List.length_cons] at h₁ this
            omega
          have hlen₂ : ((x :: xs).drop C).length ≤ fuel₂ := by
            have := List.length_drop C (x :: xs)
            simp only [List.length_cons] at h₂ this
            omega
          rw [ih fuel₂ _ hlen hlen₂]

theorem splitIntoChunks_nil (C : Nat) : splitIntoChunks C [] = [] := rfl

theorem splitIntoChunks_cons (C : Nat) (hC : C ≠ 0) (x : Byte) (xs : FileData) :
    splitIntoChunks C (x :: xs) =
      (x :: xs).take C :: splitIntoChunks C ((x :: xs).drop C) := by
  show splitIntoChunksAux C (xs.length + 1) (x :: xs) = _
  simp only [splitIntoChunksAux, if_neg hC]
  rw [splitIntoChunksAux_congr C xs.length ((x :: xs).drop C).length _ _ le_rfl]
  · rfl
  · have := List.length_drop C (x :: xs)
    simp only [List.length_cons] at this
    omega

theorem splitIntoChunks_flatten (C : Nat) (hC : C ≠ 0) :
    ∀ xs : FileData, (splitIntoChunks C xs).flatten = xs := by
  have key : ∀ fuel (xs : FileData), xs.length ≤ fuel →
      (splitIntoChunks C xs).flatten = xs := by
    intro fuel
    induction fuel with
    | zero =>
      intro xs h
      have hxs : xs = [] := List.eq_nil_of_length_eq_zero (Nat.le_zero.mp h)
      subst hxs; rfl
    | succ fuel ih =>
      intro xs h
      cases xs with
      | nil => rfl
      | cons x xs =>
        rw [splitIntoChunks_cons C hC, List.flatten_cons,
          ih ((x :: xs).drop C) (by
            have := List.length_drop C (x :: xs)
            simp only [List.length_cons] at h this
            omega),
          List.take_append_drop]
  exact fun xs => key xs.length xs le_rfl

theorem splitIntoChunks_length (C : Nat) (hC : C ≠ 0) :
    ∀ xs : FileData, (splitIntoChunks C xs).length = (xs.length + C - 1) / C := by
  have key : ∀ fuel (xs : FileData), xs.length ≤ fuel →
      (splitIntoChunks C xs).length = (xs.length + C - 1) / C := by
    intro fuel
    induction fuel with
    | zero =>
      intro xs h
      have hxs : xs = [] := List.eq_nil_of_length_eq_zero (Nat.le_zero.mp h)
      subst hxs
      simp only [splitIntoChunks_nil, List.length_nil]
      exact (Nat.div_eq_of_lt (by omega)).symm
    | succ fuel ih =>
      intro xs h
      cases xs with
      | nil =>
        simp only [splitIntoChunks_nil, List.length_nil]
        exact (Nat.div_eq_of_lt (by omega)).symm
      | cons x xs =>
        have hdrop : ((x :: xs).drop C).length = xs.length + 1 - C := by
          rw [List.length_drop, List.length_cons]
        have hfuel : ((x :: xs).drop C).length ≤ fuel := by
          simp only [List.length_cons] at h
          omega
        rw [splitIntoChunks_cons C hC, List.length_cons,
          ih ((x :: xs).drop C) hfuel, hdrop, List.length_cons]
        rcases le_or_lt (xs.length + 1) C with hle | hlt
        · have e₁ : xs.length + 1 - C = 0 := by omega
          rw [e₁, Nat.div_eq_of_lt (by omega : 0 + C - 1 < C),
            Nat.div_eq_of_lt_le (by omega : 1 * C ≤ xs.length + 1 + C - 1)
              (by omega : xs.length + 1 + C - 1 < (1 + 1) * C)]
        · have e₁ : xs.length + 1 - C + C - 1 = xs.length := by omega
          have e₂ : xs.length + 1 + C - 1 = xs.length + C := by omega
          rw [e₁, e₂, Nat.add_div_right _ (by omega : 0 < C)]
  exact fun xs => key xs.length xs le_rfl

theorem splitIntoChunks_chunk_sizes (C : Nat) (hC : C ≠ 0) :
    ∀ (xs : FileData) (i : Nat) (c : FileData),
      (splitIntoChunks C xs)[i]? = some c →
      0 < c.length ∧ c.length ≤ C ∧
        (i + 1 < (splitIntoChunks C xs).length → c.length = C) := by
  have key : ∀ fuel (xs : FileData), xs.length ≤ fuel → ∀ (i : Nat) (c : FileData),
      (splitIntoChunks C xs)[i]? = some c →
      0 < c.length ∧ c.length ≤ C ∧
        (i + 1 < (splitIntoChunks C xs).length → c.length = C) := by
    intro fuel
    induction fuel with
    | zero =>
      intro xs h i c hc
      have hxs : xs = [] := List.eq_nil_of_length_eq_zero (Nat.le_zero.mp h)
      subst hxs
      simp [splitIntoChunks_nil] at hc
    | succ fuel ih =>
      intro xs h i c hc
      cases xs with
      | nil => simp [splitIntoChunks_nil] at hc
      | cons x xs =>
        have hfuel : ((x :: xs).drop C).length ≤ fuel := by
          rw [List.length_drop, List.length_cons]
          simp only [List.length_cons] at h
          omega
        rw [splitIntoChunks_cons C hC] at hc ⊢
        cases i with
        | zero =>
          simp only [List.getElem?_cons_zero, Option.some.injEq] at hc
          subst hc
          rw [List.length_take, List.length_cons]
          refine ⟨by omega, by omega, fun hrest => ?_⟩
          simp only [List.length_cons] at hrest
          have hne : splitIntoChunks C ((x :: xs).drop C) ≠ [] := by
            intro hnil
            rw [hnil] at hrest
            simp at hrest
          have hdrop : (x :: xs).drop C ≠ [] := by
            intro hnil
            rw [hnil, splitIntoChunks_nil] at hne
            exact hne rfl
          have hlt : C < (x :: xs).length := by
            by_contra hge
            exact hdrop (List.drop_eq_nil_iff.mpr (by omega))
          simp only [List.length_cons] at hlt
          omega
        | succ i =>
          simp only [List.getElem?_cons_succ] at hc
          have := ih ((x :: xs).drop C) hfuel i c hc
          refine ⟨this.1, this.2.1, fun hrest => ?_⟩
          simp only [List.length_cons] at hrest
          exact this.2.2 (by omega)
  exact fun xs => key xs.length xs le_rfl

/-! ### Properties of the download fan-in -/

theorem applyReads_getElem (s : Store) (id : String) :
    ∀ (order : List Nat) (slots : List FileData) (j : Nat),
      (applyReads s id slots order)[j]? =
        if j ∈ order ∧ j < slots.length then some (readChunk s id j) else slots[j]? := by
  intro order
  induction order with
  | nil =>
    intro slots j
    simp [applyReads]
  | cons i rest ih =>
    intro slots j
    simp only [applyReads]
    rw [ih]
    simp only [List.length_set]
    by_cases h1 : j ∈ rest ∧ j < slots.length
    · rw [if_pos h1, if_pos ⟨List.mem_cons.mpr (Or.inr h1.1), h1.2⟩]
    · rw [if_neg h1]
      by_cases h2 : j = i
      · subst h2
        by_cases h3 : j < slots.length
        · rw [List.getElem?_set_self', List.getElem?_eq_getElem h3,
            if_pos ⟨List.mem_cons_self j rest, h3⟩]
          rfl
        · rw [List.set_eq_of_length_le (by omega),
            if_neg (fun hcond => h3 hcond.2)]
      · rw [List.getElem?_set_ne (Ne.symm h2),
          if_neg (fun hcond =>
            h1 ⟨(List.mem_cons.mp hcond.1).resolve_left h2, hcond.2⟩)]

theorem applyReads_perm (s : Store) (id : String) (N : Nat) (order : List Nat)
    (hperm : order.Perm (List.range N)) :
    applyReads s id (List.replicate N ([] : FileData)) order =
      (List.range N).map (readChunk s id) := by
  apply List.ext_getElem?
  intro j
  rw [applyReads_getElem]
  simp only [List.length_replicate]
  by_cases hj : j < N
  · rw [if_pos ⟨hperm.mem_iff.mpr (List.mem_range.mpr hj), hj⟩,
      List.getElem?_map, List.getElem?_range hj]
    rfl
  · rw [if_neg (fun hcond => hj hcond.2),
      List.getElem?_eq_none (le_of_eq_of_le (List.length_replicate N []) (by omega)),
      List.getElem?_eq_none
        (le_of_eq_of_le (by rw [List.length_map, List.length_range]) (by omega : N ≤ j))]

/-! ### Claims -/

/-- C1: for every byte sequence `F` of length `L` and positive chunk size
`C`, splitting `F` yields `⌈L/C⌉ = (L + C - 1) / C` chunks (0 chunks when
`L = 0`), and concatenating the resulting chunks in index order
reproduces `F` exactly (split/merge round-trip). -/
theorem splitIntoChunks_roundTrip (C : Nat) (hC : 0 < C) (F : FileData) :
    (splitIntoChunks C F).length = (F.length + C - 1) / C ∧
    (F.length = 0 → splitIntoChunks C F = []) ∧
    (splitIntoChunks C F).flatten = F := by
  refine ⟨splitIntoChunks_length C (by omega) F, ?_, splitIntoChunks_flatten C (by omega) F⟩
  intro hF
  have hnil : F = [] := List.eq_nil_of_length_eq_zero hF
  rw [hnil, splitIntoChunks_nil]

theorem splitIntoChunks_roundTrip_witness :
    (splitIntoChunks 3 [1, 2, 3, 4]).length = (([1, 2, 3, 4] : FileData).length + 3 - 1) / 3 ∧
    (([1, 2, 3, 4] : FileData).length = 0 → splitIntoChunks 3 [1, 2, 3, 4] = []) ∧
    (splitIntoChunks 3 [1, 2, 3, 4]).flatten = [1, 2, 3, 4] :=
  splitIntoChunks_roundTrip 3 (by decide) [1, 2, 3, 4]

/-- C6: every chunk produced by the splitter at the configured chunk size
(`chunkSize = 2^20`, i.e. 1 MiB) has length strictly greater than 0 and
at most `chunkSize`, and every chunk other than the final one has length
exactly `chunkSize` (so only the final chunk can be shorter). -/
theorem splitIntoChunks_chunk_size_bounds (xs : FileData) (i : Nat) (c : FileData)
    (hc : (splitIntoChunks chunkSize xs)[i]? = some c) :
    0 < c.length ∧ c.length ≤ chunkSize ∧
      (i + 1 < (splitIntoChunks chunkSize xs).length → c.length = chunkSize) :=
  splitIntoChunks_chunk_sizes chunkSize (by decide) xs i c hc

theorem splitIntoChunks_chunk_size_bounds_witness :
    0 < ([5] : FileData).length ∧ ([5] : FileData).length ≤ chunkSize ∧
      (0 + 1 < (splitIntoChunks chunkSize [5]).length → ([5] : FileData).length = chunkSize) :=
  splitIntoChunks_chunk_size_bounds [5] 0 [5] (by decide)

/-- C2: for every download of an existing file id whose record declares
`totalChunks` chunks, the returned body is the concatenation of the chunk
data in strict index order `0..totalChunks-1`, where a chunk whose read
failed or whose row is absent contributes zero bytes, and this holds for
every completion order of the concurrent reads (any permutation of the
fanned-out indices). -/
theorem downloadFileHandler_ordered_merge (s : Store) (idParam : String) (r : FileRecord)
    (order : List Nat) (hid : idParam ≠ "") (hmeta : s.metadata idParam = some r)
    (hperm : order.Perm (List.range r.totalChunks)) :
    (downloadFileHandler s idParam order).result =
      .ok r.filename (downloadBody s idParam r.totalChunks) := by
  simp only [downloadFileHandler, if_neg hid, hmeta]
  rw [downloadBody, applyReads_perm s idParam r.totalChunks order hperm]

theorem downloadFileHandler_ordered_merge_witness :
    (downloadFileHandler
        ⟨fun id => if id = "f" then some ⟨"orig.txt", 2⟩ else none,
         fun id i => if id = "f" ∧ i = 0 then some [1, 2] else none⟩
        "f" [1, 0]).result =
      .ok "orig.txt"
        (downloadBody
          ⟨fun id => if id = "f" then some ⟨"orig.txt", 2⟩ else none,
           fun id i => if id = "f" ∧ i = 0 then some [1, 2] else none⟩
          "f" 2) :=
  downloadFileHandler_ordered_merge
    ⟨fun id => if id = "f" then some ⟨"orig.txt", 2⟩ else none,
     fun id i => if id = "f" ∧ i = 0 then some [1, 2] else none⟩
    "f" ⟨"orig.txt", 2⟩ [1, 0] (by decide) (by decide) (by decide)

/-- C5: for every id that has no `FileRecord` in the store, download
fails with not-found and returns no partial data: the trace shows the
single metadata lookup and no chunk read, and the result carries no file
bytes. -/
theorem downloadFileHandler_notFound (s : Store) (idParam : String) (order : List Nat)
    (hid : idParam ≠ "") (hmeta : s.metadata idParam = none) :
    downloadFileHandler s idParam order = ⟨.notFound, [.metaLookup idParam]⟩ := by
  simp only [downloadFileHandler, if_neg hid, hmeta]

theorem downloadFileHandler_notFound_witness :
    downloadFileHandler Store.empty "x" [] = ⟨.notFound, [.metaLookup "x"]⟩ :=
  downloadFileHandler_notFound Store.empty "x" [] (by decide) rfl

/-- C10: a download request whose id query parameter is absent or empty
(`r.URL.Query().Get("id")` returns `""` in both cases) fails with a
bad-request error and its trace is empty: neither the metadata store nor
the chunk store is queried. -/
theorem downloadFileHandler_missing_id (s : Store) (order : List Nat) :
    downloadFileHandler s "" order = ⟨.badRequest, []⟩ := rfl

theorem downloadFileHandler_missing_id_witness :
    downloadFileHandler Store.empty "" [] = ⟨.badRequest, []⟩ :=
  downloadFileHandler_missing_id Store.empty []

/-- C3: for every upload whose metadata insert succeeds, the handler
returns the success response carrying the generated id for every
combination of per-chunk insert failures (`chunkOk`), and every chunk
whose own insert succeeded is persisted regardless of the failures of the
other in-flight inserts (a failing chunk write neither aborts the others
nor changes the returned result). -/
theorem uploadFileHandler_chunk_failures_nonfatal (s : Store) (fn : String) (data : FileData)
    (newId : String) (chunkOk : Nat → Bool) :
    (uploadFileHandler s (some (fn, data)) false newId true chunkOk).result =
      .success (uploadSuccessBody newId) ∧
    (∀ j, j < (splitIntoChunks chunkSize data).length → chunkOk j = true →
      (uploadFileHandler s (some (fn, data)) false newId true chunkOk).store.chunks newId j =
        (splitIntoChunks chunkSize data)[j]?) := by
  refine ⟨rfl, fun j hj hok => ?_⟩
  show (if newId = newId ∧ j < (splitIntoChunks chunkSize data).length ∧ chunkOk j = true
        then (splitIntoChunks chunkSize data)[j]?
        else (uploadMidStore s fn data newId).chunks newId j) =
      (splitIntoChunks chunkSize data)[j]?
  exact if_pos ⟨rfl, hj, hok⟩

theorem uploadFileHandler_chunk_failures_nonfatal_witness :
    (uploadFileHandler Store.empty (some ("a.txt", [7, 8])) false "id0" true
        (fun _ => true)).result = .success (uploadSuccessBody "id0") ∧
    (uploadFileHandler Store.empty (some ("a.txt", [7, 8])) false "id0" true
        (fun _ => true)).store.chunks "id0" 0 = (splitIntoChunks chunkSize [7, 8])[0]? := by
  have h := uploadFileHandler_chunk_failures_nonfatal Store.empty "a.txt" [7, 8] "id0"
    (fun _ => true)
  exact ⟨h.1, h.2 0 (by decide) rfl⟩

/-- C7: uploading a zero-length input succeeds with zero chunks: the
`FileRecord` written declares `totalChunks = 0`, the trace shows the
metadata write and no chunk write, no error is produced, the response
carries the generated id, and the chunk relation is untouched. -/
theorem uploadFileHandler_empty_input (s : Store) (fn : String) (newId : String)
    (chunkOk : Nat → Bool) :
    (uploadFileHandler s (some (fn, [])) false newId true chunkOk).result =
      .success (uploadSuccessBody newId) ∧
    (uploadFileHandler s (some (fn, [])) false newId true chunkOk).store.metadata newId =
      some ⟨fn, 0⟩ ∧
    (uploadFileHandler s (some (fn, [])) false newId true chunkOk).trace =
      [.metaWrite newId] ∧
    (∀ id' i, (uploadFileHandler s (some (fn, [])) false newId true chunkOk).store.chunks id' i =
      s.chunks id' i) := by
  refine ⟨rfl, ?_, rfl, fun id' i => ?_⟩
  · show (if newId = newId then some (⟨fn, 0⟩ : FileRecord) else s.metadata newId) =
      some ⟨fn, 0⟩
    exact if_pos rfl
  · show (if id' = newId ∧ i < (splitIntoChunks chunkSize ([] : FileData)).length ∧
            chunkOk i = true
          then (splitIntoChunks chunkSize ([] : FileData))[i]?
          else (uploadMidStore s fn [] newId).chunks id' i) = s.chunks id' i
    exact if_neg (fun h => Nat.not_lt_zero i h.2.1)

theorem uploadFileHandler_empty_input_witness :
    (uploadFileHandler Store.empty (some ("empty.txt", [])) false "id1" true
        (fun _ => true)).result = .success (uploadSuccessBody "id1") ∧
    (uploadFileHandler Store.empty (some ("empty.txt", [])) false "id1" true
        (fun _ => true)).store.metadata "id1" = some ⟨"empty.txt", 0⟩ ∧
    (uploadFileHandler Store.empty (some ("empty.txt", [])) false "id1" true
        (fun _ => true)).trace = [.metaWrite "id1"] ∧
    (uploadFileHandler Store.empty (some ("empty.txt", [])) false "id1" true
        (fun _ => true)).store.chunks "id1" 0 = Store.empty.chunks "id1" 0 := by
  have h := uploadFileHandler_empty_input Store.empty "empty.txt" "id1" (fun _ => true)
  exact ⟨h.1, h.2.1, h.2.2.1, h.2.2.2 "id1" 0⟩

/-- C8: in every upload (here with the file part retrieved and the stream
read without error), the metadata write is the first store operation; if
it fails the handler returns the metadata error, the store is unchanged
(zero chunk rows created) and the trace shows only the attempted metadata
write; if it succeeds, the trace is the metadata write followed by the N
chunk writes, exactly one `FileRecord` (at the fresh id) is created, and
chunk rows are created only under the fresh id at indices below N. -/
theorem uploadFileHandler_metadata_first (s : Store) (fn : String) (data : FileData)
    (newId : String) (chunkOk : Nat → Bool) :
    (uploadFileHandler s (some (fn, data)) false newId false chunkOk).result =
      .metadataError ∧
    (uploadFileHandler s (some (fn, data)) false newId false chunkOk).store = s ∧
    (uploadFileHandler s (some (fn, data)) false newId false chunkOk).trace =
      [.metaWrite newId] ∧
    (uploadFileHandler s (some (fn, data)) false newId true chunkOk).trace =
      .metaWrite newId ::
        (List.range (splitIntoChunks chunkSize data).length).map
          (fun i => .chunkWrite newId i) ∧
    (uploadFileHandler s (some (fn, data)) false newId true chunkOk).store.metadata newId =
      some ⟨fn, (splitIntoChunks chunkSize data).length⟩ ∧
    (∀ id', id' ≠ newId →
      (uploadFileHandler s (some (fn, data)) false newId true chunkOk).store.metadata id' =
        s.metadata id') ∧
    (∀ id' j, id' ≠ newId →
      (uploadFileHandler s (some (fn, data)) false newId true chunkOk).store.chunks id' j =
        s.chunks id' j) ∧
    (∀ j, (splitIntoChunks chunkSize data).length ≤ j →
      (uploadFileHandler s (some (fn, data)) false newId true chunkOk).store.chunks newId j =
        s.chunks newId j) := by
  refine ⟨rfl, rfl, rfl, rfl, ?_, fun id' h => ?_, fun id' j h => ?_, fun j hj => ?_⟩
  · show (if newId = newId
          then some (⟨fn, (splitIntoChunks chunkSize data).length⟩ : FileRecord)
          else s.metadata newId) = some ⟨fn, (splitIntoChunks chunkSize data).length⟩
    exact if_pos rfl
  · show (if id' = newId
          then some (⟨fn, (splitIntoChunks chunkSize data).length⟩ : FileRecord)
          else s.metadata id') = s.metadata id'
    exact if_neg h
  · show (if id' = newId ∧ j < (splitIntoChunks chunkSize data).length ∧ chunkOk j = true
          then (splitIntoChunks chunkSize data)[j]?
          else (uploadMidStore s fn data newId).chunks id' j) = s.chunks id' j
    exact if_neg (fun hc => h hc.1)
  · show (if newId = newId ∧ j < (splitIntoChunks chunkSize data).length ∧ chunkOk j = true
          then (splitIntoChunks chunkSize data)[j]?
          else (uploadMidStore s fn data newId).chunks newId j) = s.chunks newId j
    exact if_neg (fun hc => Nat.not_lt.mpr hj hc.2.1)

theorem uploadFileHandler_metadata_first_witness :
    (uploadFileHandler Store.empty (some ("a.txt", [7])) false "id0" false
        (fun _ => true)).result = .metadataError ∧
    (uploadFileHandler Store.empty (some ("a.txt", [7])) false "id0" false
        (fun _ => true)).trace = [.metaWrite "id0"] ∧
    (uploadFileHandler Store.empty (some ("a.txt", [7])) false "id0" true
        (fun _ => true)).store.chunks "other" 0 = Store.empty.chunks "other" 0 := by
  have h := uploadFileHandler_metadata_first Store.empty "a.txt" [7] "id0" (fun _ => true)
  exact ⟨h.1, h.2.2.1, h.2.2.2.2.2.2.1 "other" 0 (by decide)⟩

/-- C4 (counterexample): the claim that `total_chunks` equals the number
of persisted chunks at the moment the `FileRecord` becomes visible fails
on the code.  `uploadFileHandler` inserts the metadata row (line 92)
before any chunk insert: uploading the 1-byte file `[7]` into an empty
store, at the instant the record becomes visible it declares
`totalChunks = 1` while 0 chunks are persisted for that id. -/
theorem totalChunks_visible_counterexample :
    (uploadMidStore Store.empty "a.txt" [7] "id0").metadata "id0" = some ⟨"a.txt", 1⟩ ∧
    persistedChunkCount (uploadMidStore Store.empty "a.txt" [7] "id0") "id0" 1 = 0 ∧
    (1 : Nat) ≠ 0 := by
  decide

/-- C4 (amended): `total_chunks` equals the number of chunks the upload
will attempt to write, not the number persisted when the record becomes
visible: at the instant the metadata insert makes the record visible,
zero chunks of the fresh id are persisted; the declared count matches the
persisted count only after the upload completes and only when every
chunk insert succeeded. -/
theorem totalChunks_matches_persisted_after_success (s : Store) (fn : String)
    (data : FileData) (newId : String) (chunkOk : Nat → Bool)
    (hfresh : ∀ i, s.chunks newId i = none)
    (hok : ∀ i, i < (splitIntoChunks chunkSize data).length → chunkOk i = true) :
    persistedChunkCount
        (uploadFileHandler s (some (fn, data)) false newId true chunkOk).store newId
        (splitIntoChunks chunkSize data).length =
      (splitIntoChunks chunkSize data).length ∧
    persistedChunkCount (uploadMidStore s fn data newId) newId
        (splitIntoChunks chunkSize data).length = 0 := by
  constructor
  · rw [persistedChunkCount]
    have hall : ∀ i ∈ List.range (splitIntoChunks chunkSize data).length,
        ((uploadFileHandler s (some (fn, data)) false newId true
            chunkOk).store.chunks newId i).isSome = true := by
      intro i hi
      have hi' := List.mem_range.mp hi
      show (if newId = newId ∧ i < (splitIntoChunks chunkSize data).length ∧ chunkOk i = true
            then (splitIntoChunks chunkSize data)[i]?
            else (uploadMidStore s fn data newId).chunks newId i).isSome = true
      rw [if_pos ⟨rfl, hi', hok i hi'⟩, List.getElem?_eq_getElem hi']
      rfl
    rw [List.filter_eq_self.mpr hall, List.length_range]
  · rw [persistedChunkCount]
    have hnone : ∀ i ∈ List.range (splitIntoChunks chunkSize data).length,
        ¬(((uploadMidStore s fn data newId).chunks newId i).isSome = true) := by
      intro i _
      show ¬((s.chunks newId i).isSome = true)
      rw [hfresh i]
      exact Bool.false_ne_true
    rw [List.filter_eq_nil_iff.mpr hnone, List.length_nil]

theorem totalChunks_matches_persisted_after_success_witness :
    persistedChunkCount
        (uploadFileHandler Store.empty (some ("a.txt", [7])) false "id0" true
          (fun _ => true)).store "id0" (splitIntoChunks chunkSize [7]).length =
      (splitIntoChunks chunkSize [7]).length ∧
    persistedChunkCount (uploadMidStore Store.empty "a.txt" [7] "id0") "id0"
        (splitIntoChunks chunkSize [7]).length = 0 :=
  totalChunks_matches_persisted_after_success Store.empty "a.txt" [7] "id0"
    (fun _ => true) (fun _ => rfl) (fun _ _ => rfl)

/-- C9 (code evaluated at the failing input): an upload whose file part
is `10 * 2^20 + 1` bytes — one byte over the claimed 10 MiB boundary
limit — is not rejected: the handler returns the 200 success response
(whose body is the message embedding the id, not the bare identifier).
In the source, `r.ParseMultipartForm(10 << 20)` caps only the memory used
while parsing (larger file parts are spilled to temporary files) and
rejects nothing, and no other size check exists, contradicting both the
claim and the source's own comment "Limit upload size to 10MB". -/
theorem uploadFileHandler_oversized_accepted :
    (List.replicate (10 * 1048576 + 1) (0 : Byte)).length = 10 * 1048576 + 1 ∧
    10 * 1048576 < (List.replicate (10 * 1048576 + 1) (0 : Byte)).length ∧
    (uploadFileHandler Store.empty
        (some ("big.bin", List.replicate (10 * 1048576 + 1) (0 : Byte)))
        false "id0" true (fun _ => true)).result = .success (uploadSuccessBody "id0") := by
  refine ⟨List.length_replicate _ _, ?_, rfl⟩
  rw [List.length_replicate]
  omega
